import Mathlib

/-!
Verification of the guitarbiro note-detection core against its specification.

The development shallowly embeds the C sources:
 * `src/guitar.c` — music-theory helpers (semitones, frets);
 * `src/period_estimator.c` — normalized-autocorrelation period estimator
   (`computeNac`, `findPeak`, `fixOctaves`, `estimatePeriod`);
 * `detect.c` — the realtime analysis pipeline (`detectAnalyze`,
   `analyzeFiltered`).

Modelling conventions:
 * C `short`/`int` semitone and index arithmetic is modelled on `ℤ`, and
   unsigned counters on `ℕ`; two's-complement wrap-around is not modelled
   (all quantities of interest are far from the type bounds).
 * C `float`/`double` arithmetic is modelled exactly over a linear ordered
   field `K` (instantiated at `ℚ` for concrete evaluations and at `ℝ` when
   `sqrt`/`log` are needed).  `sqrt` is passed as an explicit function
   parameter `sqrtF` so that the estimator pipeline stays polymorphic; the
   real pipeline instantiates `sqrtF := Real.sqrt`.  `isnan`/`isfinite`
   checks have no counterpart in exact arithmetic and are vacuous here.
 * C arrays are modelled as total functions `ℤ → K` (reads outside the
   region a claim constrains are never relevant to the theorems).
-/

/-- INVALID_SEMITONE from guitar.h: SHRT_MIN. -/
def INVALID_SEMITONE : ℤ := -32768

/-- GUITAR_STRINGS from guitar.h. -/
def GUITAR_STRINGS : ℕ := 6

/-- GUITAR_FRETS from guitar.h. -/
def GUITAR_FRETS : ℕ := 22

/-- STANDARD_TUNING from guitar.c (semitones from A0, string 0 = E4). -/
def STANDARD_TUNING : List ℤ := [43, 38, 34, 29, 24, 19]

/-- Loop of `noteToFrets` (guitar.c, lines 104-120), one string per list
element.  Returns the produced `frets` array together with the `valid`
counter.  The C test `frets[i] > fretsNumber` compares the signed entry
against an `unsigned int` after integer conversion, so a negative entry
also takes that branch; on `ℤ` this is `f < 0 ∨ fretsNumber < f`. -/
def noteToFretsGo (note : ℤ) (fretsNumber : ℕ) : List ℤ → List ℤ × ℕ
  | [] => ([], 0)
  | t :: ts =>
    let rest := noteToFretsGo note fretsNumber ts
    let f : ℤ := note - t
    if f < 0 ∨ (fretsNumber : ℤ) < f then ((-1) :: rest.1, rest.2)
    else (f :: rest.1, if 0 ≤ f then rest.2 + 1 else rest.2)

/-- The `frets` output array of `noteToFrets`. -/
def noteToFrets (note : ℤ) (tuning : List ℤ) (fretsNumber : ℕ) : List ℤ :=
  (noteToFretsGo note fretsNumber tuning).1

/-- The return value (`valid`) of `noteToFrets`. -/
def noteToFretsCount (note : ℤ) (tuning : List ℤ) (fretsNumber : ℕ) : ℕ :=
  (noteToFretsGo note fretsNumber tuning).2

/-- The reference frequency of A0 (guitar.c). -/
noncomputable def A0 : ℝ := 27.5

/-- frequencyToSemitones (guitar.c, lines 86-102), return value.  The C
code computes `round(log2f(frequency / A0) * 12)`; `log2f` is modelled as
the exact base-2 logarithm. -/
noncomputable def frequencyToSemitones (frequency : ℝ) : ℤ :=
  if frequency ≤ 0 then INVALID_SEMITONE
  else round (Real.logb 2 (frequency / A0) * 12)

/-- frequencyToSemitones, `*error` out-parameter: written only on the
non-early-return path, as `A0 * 2^(ret/12) / frequency`. -/
noncomputable def frequencyToSemitonesError (frequency : ℝ) : Option ℝ :=
  if frequency ≤ 0 then none
  else some (A0 * (2 : ℝ) ^ (((frequencyToSemitones frequency : ℤ) : ℝ) / 12)
    / frequency)

theorem noteToFretsGo_cons (note : ℤ) (fretsNumber : ℕ) (t : ℤ) (ts : List ℤ) :
    noteToFretsGo note fretsNumber (t :: ts) =
      if note - t < 0 ∨ (fretsNumber : ℤ) < note - t
      then ((-1) :: (noteToFretsGo note fretsNumber ts).1,
        (noteToFretsGo note fretsNumber ts).2)
      else ((note - t) :: (noteToFretsGo note fretsNumber ts).1,
        if 0 ≤ note - t then (noteToFretsGo note fretsNumber ts).2 + 1
        else (noteToFretsGo note fretsNumber ts).2) := rfl

theorem noteToFretsGo_spec (note : ℤ) (fretsNumber : ℕ) (tuning : List ℤ) :
    (noteToFretsGo note fretsNumber tuning).1.length = tuning.length ∧
    (noteToFretsGo note fretsNumber tuning).2 =
      (noteToFretsGo note fretsNumber tuning).1.countP (fun f => decide (0 ≤ f)) ∧
    ∀ i : ℕ, i < tuning.length →
      ∃ t f, tuning.get? i = some t ∧
        (noteToFretsGo note fretsNumber tuning).1.get? i = some f ∧
        (f = -1 ∨ (0 ≤ f ∧ f ≤ (fretsNumber : ℤ) ∧ t + f = note)) := by
  induction tuning with
  | nil => refine ⟨rfl, rfl, ?_⟩; intro i hi; simp at hi
  | cons t ts ih =>
    obtain ⟨ihlen, ihcnt, ihent⟩ := ih
    rw [noteToFretsGo_cons]
    by_cases hb : note - t < 0 ∨ (fretsNumber : ℤ) < note - t
    · rw [if_pos hb]
      refine ⟨by simp [ihlen], ?_, ?_⟩
      · rw [List.countP_cons]
        norm_num [ihcnt]
      · intro i hi
        match i with
        | 0 => exact ⟨t, -1, rfl, rfl, Or.inl rfl⟩
        | i + 1 =>
          obtain ⟨t0, f0, h1, h2, h3⟩ := ihent i (by simpa using hi)
          exact ⟨t0, f0, h1, h2, h3⟩
    · rw [if_neg hb]
      push_neg at hb
      have h0 : 0 ≤ note - t := hb.1
      rw [if_pos h0]
      refine ⟨by simp [ihlen], ?_, ?_⟩
      · rw [List.countP_cons]
        simp [ihcnt, h0]
      · intro i hi
        match i with
        | 0 => exact ⟨t, note - t, rfl, rfl, Or.inr ⟨h0, hb.2, by ring⟩⟩
        | i + 1 =>
          obtain ⟨t0, f0, h1, h2, h3⟩ := ihent i (by simpa using hi)
          exact ⟨t0, f0, h1, h2, h3⟩

/-- C8: for every note, tuning and string index, the entry produced by
`noteToFrets` is either the UNPLAYABLE sentinel `-1` or lies in
`[0, fretsNumber]`; when playable, `tuning[i] + frets[i] = note`; and the
returned count equals the number of playable entries. -/
theorem noteToFrets_spec (note : ℤ) (tuning : List ℤ) (fretsNumber : ℕ) :
    (noteToFrets note tuning fretsNumber).length = tuning.length ∧
    noteToFretsCount note tuning fretsNumber =
      (noteToFrets note tuning fretsNumber).countP (fun f => decide (0 ≤ f)) ∧
    ∀ i : ℕ, i < tuning.length →
      ∃ t f, tuning.get? i = some t ∧
        (noteToFrets note tuning fretsNumber).get? i = some f ∧
        (f = -1 ∨ (0 ≤ f ∧ f ≤ (fretsNumber : ℤ) ∧ t + f = note)) :=
  noteToFretsGo_spec note fretsNumber tuning

/-- C8 witness: G3 (semitone 34) in standard tuning, string 3 (D3): the
fret entry is 5 and the claim instance holds there; the full arrays are
`[-1,-1,0,5,10,15]` with 4 playable positions. -/
theorem noteToFrets_spec_witness :
    (3 < STANDARD_TUNING.length ∧
      (∃ t f, STANDARD_TUNING.get? 3 = some t ∧
        (noteToFrets 34 STANDARD_TUNING 22).get? 3 = some f ∧
        (f = -1 ∨ (0 ≤ f ∧ f ≤ (22 : ℤ) ∧ t + f = 34)))) ∧
    noteToFrets 34 STANDARD_TUNING 22 = [-1, -1, 0, 5, 10, 15] ∧
    noteToFretsCount 34 STANDARD_TUNING 22 = 4 := by
  refine ⟨⟨by norm_num [STANDARD_TUNING],
    (noteToFrets_spec 34 STANDARD_TUNING 22).2.2 3 (by norm_num [STANDARD_TUNING])⟩, ?_, ?_⟩
  · norm_num [noteToFrets, STANDARD_TUNING, noteToFretsGo]
  · norm_num [noteToFretsCount, STANDARD_TUNING, noteToFretsGo]

/-- C9: for every semitone `s` in `[-9, 115]`, feeding the reference
frequency `27.5 * 2^(s/12)` back into `frequencyToSemitones` returns `s`
and writes an error ratio within `1 ± 10⁻³` (here exactly 1); and every
frequency `f ≤ 0` yields the INVALID_SEMITONE sentinel. -/
theorem frequencyToSemitones_roundTrip (s : ℤ) (hlo : -9 ≤ s) (hhi : s ≤ 115) :
    frequencyToSemitones (A0 * (2 : ℝ) ^ ((s : ℝ) / 12)) = s ∧
    (∃ e : ℝ, frequencyToSemitonesError (A0 * (2 : ℝ) ^ ((s : ℝ) / 12)) = some e ∧
      |e - 1| ≤ 1 / 1000) ∧
    ∀ f : ℝ, f ≤ 0 → frequencyToSemitones f = INVALID_SEMITONE := by
  have hA : (0 : ℝ) < A0 := by norm_num [A0]
  have h2 : (0 : ℝ) < (2 : ℝ) ^ ((s : ℝ) / 12) :=
    Real.rpow_pos_of_pos (by norm_num) _
  have hpos : (0 : ℝ) < A0 * (2 : ℝ) ^ ((s : ℝ) / 12) := mul_pos hA h2
  have hret : frequencyToSemitones (A0 * (2 : ℝ) ^ ((s : ℝ) / 12)) = s := by
    rw [frequencyToSemitones, if_neg (not_le.mpr hpos),
      mul_div_cancel_left₀ _ (ne_of_gt hA),
      Real.logb_rpow (by norm_num : (0 : ℝ) < 2) (by norm_num : (2 : ℝ) ≠ 1),
      div_mul_cancel₀]
    · exact round_intCast s
    · norm_num
  refine ⟨hret, ⟨1, ?_, by norm_num⟩, ?_⟩
  · rw [frequencyToSemitonesError, if_neg (not_le.mpr hpos), hret,
      div_self (ne_of_gt hpos)]
  · intro f hf
    rw [frequencyToSemitones, if_pos hf]

/-- C9 witness: at s = 48 (A4, 440 Hz) the round trip holds. -/
theorem frequencyToSemitones_roundTrip_witness :
    (-9 ≤ (48 : ℤ) ∧ (48 : ℤ) ≤ 115) ∧
    frequencyToSemitones (A0 * (2 : ℝ) ^ ((48 : ℤ) / 12 : ℝ)) = 48 := by
  refine ⟨by norm_num, ?_⟩
  have h := frequencyToSemitones_roundTrip 48 (by norm_num) (by norm_num)
  exact_mod_cast h.1

/-- List of the integers `a, a+1, ..., b` (empty when `b < a`): the index
sequence of a C `for` loop running from `a` to `b` inclusive. -/
def intRange (a b : ℤ) : List ℤ :=
  (List.range (b + 1 - a).toNat).map (fun k : ℕ => a + (k : ℤ))

theorem intRange_nil (a b : ℤ) (h : b < a) : intRange a b = [] := by
  rw [intRange, show (b + 1 - a).toNat = 0 by omega, List.range_zero, List.map_nil]

theorem intRange_cons (a b : ℤ) (h : a ≤ b) : intRange a b = a :: intRange (a + 1) b := by
  have h1 : (b + 1 - a).toNat = (b + 1 - (a + 1)).toNat + 1 := by omega
  rw [intRange, h1, List.range_succ_eq_map, List.map_cons, List.map_map, intRange]
  have h2 : ((fun k : ℕ => a + (k : ℤ)) ∘ Nat.succ) = fun k : ℕ => (a + 1) + (k : ℤ) := by
    funext k
    simp only [Function.comp_apply, Nat.succ_eq_add_one]
    push_cast
    ring
  rw [h2]
  norm_num

theorem intRange_mem (a b p : ℤ) : p ∈ intRange a b ↔ a ≤ p ∧ p ≤ b := by
  constructor
  · intro hp
    obtain ⟨k, hk, rfl⟩ := List.mem_map.mp hp
    have := List.mem_range.mp hk
    omega
  · rintro ⟨h1, h2⟩
    refine List.mem_map.mpr ⟨(p - a).toNat, List.mem_range.mpr (by omega), by omega⟩

section PeriodEstimator

variable {K : Type} [LinearOrderedField K] [FloorRing K]

/-- Inner `ac` loop of `computeNac` (period_estimator.c, lines 493-495):
`ac = Σ_{i ∈ [0, n-p)} x[i]·x[i+p]`. -/
def acSum (x : ℤ → K) (n p : ℤ) : K :=
  ((intRange 0 (n - p - 1)).map (fun i => x i * x (i + p))).sum

/-- Reference sum of squares of the beginning part,
`B(p) = Σ_{i ∈ [0, n-p)} x[i]²`: the direct double loop of the spec (and of
the repository's earlier revision of `computeNac`). -/
def sumSqBegRef (x : ℤ → K) (n p : ℤ) : K :=
  ((intRange 0 (n - p - 1)).map (fun i => x i * x i)).sum

/-- Reference sum of squares of the ending part,
`E(p) = Σ_{i ∈ [0, n-p)} x[i+p]²`. -/
def sumSqEndRef (x : ℤ → K) (n p : ℤ) : K :=
  ((intRange 0 (n - p - 1)).map (fun i => x (i + p) * x (i + p))).sum

/-- Initial value of `sumSqBeg` in the incremental `computeNac`
(period_estimator.c, lines 472-487): the loop
`for(i = 0; i < n - minP + 1; i++) sumSqBeg += x[i]*x[i]` starting from 0. -/
def begInit (x : ℤ → K) (n minP : ℤ) : K :=
  ((intRange 0 (n - minP)).map (fun i => x i * x i)).sum

/-- Initial value of `sumSqEnd` in the incremental `computeNac`: seeded with
`x[minP-2]²` and accumulated over `j = minP-1+i` for `i ∈ [0, n-minP+1)`. -/
def endInit (x : ℤ → K) (n minP : ℤ) : K :=
  x (minP - 2) * x (minP - 2) +
    ((intRange 0 (n - minP)).map (fun i => x (minP - 1 + i) * x (minP - 1 + i))).sum

/-- Value of `sumSqBeg` used at the `k`-th lag (`p = minP - 1 + k`) of the
incremental loop, i.e. after that iteration's `sumSqBeg -= x[n-p]*x[n-p]`. -/
def sumSqBegAt (x : ℤ → K) (n minP : ℤ) : ℕ → K
  | 0 => begInit x n minP - x (n - (minP - 1)) * x (n - (minP - 1))
  | k + 1 => sumSqBegAt x n minP k - x (n - (minP + k)) * x (n - (minP + k))

/-- Value of `sumSqEnd` used at the `k`-th lag (`p = minP - 1 + k`) of the
incremental loop, i.e. after that iteration's `sumSqEnd -= x[p-1]*x[p-1]`. -/
def sumSqEndAt (x : ℤ → K) (n minP : ℤ) : ℕ → K
  | 0 => endInit x n minP - x (minP - 2) * x (minP - 2)
  | k + 1 => sumSqEndAt x n minP k - x (minP - 1 + k) * x (minP - 1 + k)

/-- Entry written to `nac[p]`, `p = minP - 1 + k`, by the incremental
`computeNac` (period_estimator.c, lines 470-506). -/
def nacAt (sqrtF : K → K) (x : ℤ → K) (n minP : ℤ) (k : ℕ) : K :=
  if sumSqBegAt x n minP k ≠ 0 ∧ sumSqEndAt x n minP k ≠ 0 then
    acSum x n (minP - 1 + k) / sqrtF (sumSqBegAt x n minP k * sumSqEndAt x n minP k)
  else 0

/-- The `nac` buffer computed by `computeNac`, as a function of the lag
(entries outside the written range `[minP-1, maxP+1]` are 0). -/
def computeNac (sqrtF : K → K) (x : ℤ → K) (n minP maxP : ℤ) : ℤ → K := fun p =>
  if minP - 1 ≤ p ∧ p ≤ maxP + 1 then nacAt sqrtF x n minP (p - (minP - 1)).toNat
  else 0

/-- Reference NAC of the spec: `ac(p)/sqrt(B(p)·E(p))` when both energies
are nonzero, else 0 (this is also what the repository's earlier,
direct-double-loop revision of `computeNac` computes). -/
def nacRef (sqrtF : K → K) (x : ℤ → K) (n p : ℤ) : K :=
  if sumSqBegRef x n p ≠ 0 ∧ sumSqEndRef x n p ≠ 0 then
    acSum x n p / sqrtF (sumSqBegRef x n p * sumSqEndRef x n p)
  else 0

/-- C truncation cast `(int)v`: rounds toward zero. -/
def ctrunc (v : K) : ℤ := if v < 0 then ⌈v⌉ else ⌊v⌋

/-- Argmax loop of `findPeak` (period_estimator.c, lines 522-529): first
index in `[minP, maxP]` attaining the maximum of `nac`. -/
def bestLag (nac : ℤ → K) (minP maxP : ℤ) : ℤ :=
  (intRange minP maxP).foldl (fun best p => if nac best < nac p then p else best) minP

/-- shiftMaxError from findPeak: 0.2. -/
def shiftMaxError : K := 1 / 5

/-- findPeak (period_estimator.c, lines 508-575).  Returns `none` when the
argmax is not a peak (the C function returns -1 and leaves `*period`
unwritten), else `some (best, period)` where `period` is `best` plus the
accepted parabolic shift.  The final `isnan(*period)` guard of the C code
cannot fire in exact arithmetic and is omitted. -/
def findPeak (nac : ℤ → K) (minP maxP : ℤ) : Option (ℤ × K) :=
  let best := bestLag nac minP maxP
  if nac best < nac (best - 1) ∧ nac best < nac (best + 1) then none
  else
    let mid := nac best
    let left := nac (best - 1)
    let right := nac (best + 1)
    if 2 * mid - left - right ≠ 0 then
      let shift := 1 / 2 * (right - left) / (2 * mid - left - right)
      if |shift| < shiftMaxError * (best : K) then some (best, (best : K) + shift)
      else some (best, (best : K))
    else some (best, (best : K))

/-- k_subMulThreshold from fixOctaves: 0.90. -/
def subMulThreshold : K := 9 / 10

/-- Inner loop of `fixOctaves` (period_estimator.c, lines 595-608): whether
the NAC is strong at every submultiple `k/mul` of the period. -/
def subsAllStrong (nac : ℤ → K) (period : K) (maxNac mul : ℤ) : Bool :=
  (intRange 1 (mul - 1)).all (fun k =>
    !(decide (nac (ctrunc ((k : K) * period / (mul : K) + 1 / 2)) <
      subMulThreshold * nac maxNac)))

/-- Outer loop of `fixOctaves`: try each candidate multiple in turn (the
list is ordered from `maxMul` down to 1) and divide by the first accepted
one. -/
def fixOctavesGo (nac : ℤ → K) (period : K) (maxNac : ℤ) : List ℤ → K
  | [] => period
  | mul :: rest =>
    if subsAllStrong nac period maxNac mul then period / (mul : K)
    else fixOctavesGo nac period maxNac rest

/-- fixOctaves (period_estimator.c, lines 577-619).  `maxMul = maxNac/minP`
is a C integer division of positives (truncation, `Int.tdiv`). -/
def fixOctaves (nac : ℤ → K) (minP : ℤ) (period : K) (maxNac : ℤ) : K :=
  fixOctavesGo nac period maxNac (intRange 1 (Int.tdiv maxNac minP)).reverse

/-- Result of `estimatePeriod`: the returned `period`, the quality written
to `*q`, and the value written to `*periodInt` (`none` when the failure
path leaves the out-parameter unwritten). -/
structure EstResult (K : Type) where
  period : K
  quality : K
  periodInt : Option ℤ

/-- estimatePeriod (period_estimator.c, lines 403-455) after the `nac`
buffer has been computed: peak search, quality, octave fix.  On findPeak
failure it returns period 0 with `*q` still 0 and `*periodInt` unwritten. -/
def estimatePeriodNac (nac : ℤ → K) (minP maxP : ℤ) : EstResult K :=
  match findPeak nac minP maxP with
  | none => ⟨0, 0, none⟩
  | some (best, period) => ⟨fixOctaves nac minP period best, nac best, some best⟩

/-- estimatePeriod, end to end (allocation failure of the NAC buffer is not
modelled). -/
def estimatePeriod (sqrtF : K → K) (x : ℤ → K) (n minP maxP : ℤ) : EstResult K :=
  estimatePeriodNac (computeNac sqrtF x n minP maxP) minP maxP

end PeriodEstimator

/-- C1 (failing input): on the all-ones block `x = 1,...,1` with `n = 8`,
`minP = 2`, `maxP = 4`, at lag `p = 1` the incremental `computeNac` uses
`sumSqBeg = B(1) - x[7]² = 6` (the initialization loop never adds the
`x[n-minP+1]²` term that the first iteration subtracts, unlike the
symmetric extra term seeded into `sumSqEnd`), so it stores
`nac[1] = 7/√42 ≈ 1.08`, while the reference value `ac(1)/√(B(1)·E(1))`
of the spec (and of the direct double loop) is exactly 1. -/
theorem computeNac_vs_reference :
    sumSqBegAt (fun _ => (1 : ℝ)) 8 2 0 = sumSqBegRef (fun _ => (1 : ℝ)) 8 1 - 1 ∧
    sumSqEndAt (fun _ => (1 : ℝ)) 8 2 0 = sumSqEndRef (fun _ => (1 : ℝ)) 8 1 ∧
    computeNac Real.sqrt (fun _ => (1 : ℝ)) 8 2 4 1 = 7 / Real.sqrt 42 ∧
    nacRef Real.sqrt (fun _ => (1 : ℝ)) 8 1 = 1 ∧
    computeNac Real.sqrt (fun _ => (1 : ℝ)) 8 2 4 1 ≠
      nacRef Real.sqrt (fun _ => (1 : ℝ)) 8 1 := by
  have hbeg : sumSqBegAt (fun _ => (1 : ℝ)) 8 2 0 = 6 := by
    norm_num [sumSqBegAt, begInit, intRange_cons, intRange_nil]
  have hend : sumSqEndAt (fun _ => (1 : ℝ)) 8 2 0 = 7 := by
    norm_num [sumSqEndAt, endInit, intRange_cons, intRange_nil]
  have hbr : sumSqBegRef (fun _ => (1 : ℝ)) 8 1 = 7 := by
    norm_num [sumSqBegRef, intRange_cons, intRange_nil]
  have her : sumSqEndRef (fun _ => (1 : ℝ)) 8 1 = 7 := by
    norm_num [sumSqEndRef, intRange_cons, intRange_nil]
  have hac : acSum (fun _ => (1 : ℝ)) 8 1 = 7 := by
    norm_num [acSum, intRange_cons, intRange_nil]
  have hcn : computeNac Real.sqrt (fun _ => (1 : ℝ)) 8 2 4 1 = 7 / Real.sqrt 42 := by
    rw [computeNac, if_pos (by norm_num), show ((1 : ℤ) - (2 - 1)).toNat = 0 from rfl,
      nacAt, if_pos (by rw [hbeg, hend]; norm_num)]
    rw [hbeg, hend, show (2 : ℤ) - 1 + (0 : ℕ) = 1 by norm_num, hac]
    norm_num
  have h49 : Real.sqrt 49 = 7 := by
    rw [show (49 : ℝ) = 7 ^ 2 by norm_num, Real.sqrt_sq (by norm_num : (0 : ℝ) ≤ 7)]
  have hnr : nacRef Real.sqrt (fun _ => (1 : ℝ)) 8 1 = 1 := by
    rw [nacRef, if_pos (by rw [hbr, her]; norm_num), hbr, her, hac]
    norm_num [h49]
  refine ⟨by rw [hbeg, hbr]; norm_num, by rw [hend, her], hcn, hnr, ?_⟩
  rw [hcn, hnr]
  intro h
  have hpos : (0 : ℝ) < Real.sqrt 42 := Real.sqrt_pos.mpr (by norm_num)
  have hs : Real.sqrt 42 = 7 := by
    field_simp at h
    linarith
  have hsq := Real.sq_sqrt (show (0 : ℝ) ≤ 42 by norm_num)
  rw [hs] at hsq
  norm_num at hsq

section PeakLemmas

variable {K : Type} [LinearOrderedField K] [FloorRing K]

theorem bestLag_bounds (nac : ℤ → K) (minP maxP : ℤ) (h : minP ≤ maxP) :
    minP ≤ bestLag nac minP maxP ∧ bestLag nac minP maxP ≤ maxP := by
  have main : ∀ (l : List ℤ) (acc : ℤ), minP ≤ acc → acc ≤ maxP →
      (∀ p ∈ l, minP ≤ p ∧ p ≤ maxP) →
      minP ≤ l.foldl (fun best p => if nac best < nac p then p else best) acc ∧
        l.foldl (fun best p => if nac best < nac p then p else best) acc ≤ maxP := by
    intro l
    induction l with
    | nil => intro acc h1 h2 _; exact ⟨h1, h2⟩
    | cons p ps ih =>
      intro acc h1 h2 hl
      rw [List.foldl_cons]
      by_cases hc : nac acc < nac p
      · rw [if_pos hc]
        exact ih p (hl p (List.mem_cons_self p ps)).1 (hl p (List.mem_cons_self p ps)).2
          (fun q hq => hl q (List.mem_cons_of_mem p hq))
      · rw [if_neg hc]
        exact ih acc h1 h2 (fun q hq => hl q (List.mem_cons_of_mem p hq))
  exact main (intRange minP maxP) minP le_rfl h
    (fun p hp => (intRange_mem minP maxP p).mp hp)

theorem findPeak_eq_none_iff (nac : ℤ → K) (minP maxP : ℤ) :
    findPeak nac minP maxP = none ↔
      (nac (bestLag nac minP maxP) < nac (bestLag nac minP maxP - 1) ∧
        nac (bestLag nac minP maxP) < nac (bestLag nac minP maxP + 1)) := by
  simp only [findPeak]
  split_ifs with h1 h2 h3 <;> simp [h1]

theorem findPeak_some (nac : ℤ → K) (minP maxP b : ℤ) (per : K)
    (h : findPeak nac minP maxP = some (b, per)) :
    b = bestLag nac minP maxP ∧
    (per = (b : K) ∨
      (2 * nac b - nac (b - 1) - nac (b + 1) ≠ 0 ∧
        per = (b : K) + 1 / 2 * (nac (b + 1) - nac (b - 1)) /
          (2 * nac b - nac (b - 1) - nac (b + 1)) ∧
        |1 / 2 * (nac (b + 1) - nac (b - 1)) /
          (2 * nac b - nac (b - 1) - nac (b + 1))| < shiftMaxError * (b : K))) ∧
    (2 * nac b - nac (b - 1) - nac (b + 1) ≠ 0 →
      ¬ |1 / 2 * (nac (b + 1) - nac (b - 1)) /
        (2 * nac b - nac (b - 1) - nac (b + 1))| < shiftMaxError * (b : K) →
      per = (b : K)) := by
  simp only [findPeak] at h
  split_ifs at h with h1 h2 h3
  · rw [Option.some.injEq, Prod.mk.injEq] at h
    obtain ⟨h4, h5⟩ := h
    subst h4
    subst h5
    exact ⟨rfl, Or.inr ⟨h2, rfl, h3⟩, fun _ hn => absurd h3 hn⟩
  · rw [Option.some.injEq, Prod.mk.injEq] at h
    obtain ⟨h4, h5⟩ := h
    subst h4
    subst h5
    exact ⟨rfl, Or.inl rfl, fun _ _ => rfl⟩
  · rw [Option.some.injEq, Prod.mk.injEq] at h
    obtain ⟨h4, h5⟩ := h
    subst h4
    subst h5
    exact ⟨rfl, Or.inl rfl, fun hne _ => absurd hne (by simpa using h2)⟩

end PeakLemmas

theorem intRange_snoc (a b : ℤ) (h : a ≤ b) :
    intRange a b = intRange a (b - 1) ++ [b] := by
  have h1 : (b + 1 - a).toNat = (b - 1 + 1 - a).toNat + 1 := by omega
  rw [intRange, h1, List.range_succ, List.map_append, intRange]
  have h2 : a + ((b - 1 + 1 - a).toNat : ℤ) = b := by omega
  rw [List.map_singleton, h2]

section OctaveLemmas

variable {K : Type} [LinearOrderedField K] [FloorRing K]

theorem subsAllStrong_one (nac : ℤ → K) (period : K) (maxNac : ℤ) :
    subsAllStrong nac period maxNac 1 = true := by
  rw [subsAllStrong, show (1 : ℤ) - 1 = 0 by norm_num, intRange_nil 1 0 (by norm_num),
    List.all_nil]

theorem ctrunc_add_half (v : K) (h : 0 ≤ v) : ctrunc (v + 1 / 2) = round v := by
  rw [ctrunc, if_neg (by linarith), round_eq]

theorem subsAllStrong_iff_round (nac : ℤ → K) (period : K) (maxNac mul : ℤ)
    (hp : 0 < period) (hm : 1 ≤ mul) :
    subsAllStrong nac period maxNac mul = true ↔
      ∀ k : ℤ, 1 ≤ k → k ≤ mul - 1 →
        subMulThreshold * nac maxNac ≤ nac (round ((k : K) * period / (mul : K))) := by
  rw [subsAllStrong, List.all_eq_true]
  constructor
  · intro hall k hk1 hk2
    have hmem : k ∈ intRange 1 (mul - 1) := (intRange_mem 1 (mul - 1) k).mpr ⟨hk1, hk2⟩
    have := hall k hmem
    rw [Bool.not_eq_true', decide_eq_false_iff_not, not_lt] at this
    rwa [ctrunc_add_half _ (by positivity)] at this
  · intro hall k hmem
    obtain ⟨hk1, hk2⟩ := (intRange_mem 1 (mul - 1) k).mp hmem
    rw [Bool.not_eq_true', decide_eq_false_iff_not, not_lt,
      ctrunc_add_half _ (by positivity)]
    exact hall k hk1 hk2

theorem fixOctavesGo_desc (nac : ℤ → K) (period : K) (maxNac : ℤ) :
    ∀ N : ℕ, 1 ≤ N →
      ∃ m : ℤ, 1 ≤ m ∧ m ≤ (N : ℤ) ∧ subsAllStrong nac period maxNac m = true ∧
        (∀ m2 : ℤ, m < m2 → m2 ≤ (N : ℤ) → subsAllStrong nac period maxNac m2 = false) ∧
        fixOctavesGo nac period maxNac (intRange 1 (N : ℤ)).reverse = period / (m : K) := by
  intro N
  induction N with
  | zero => intro h; exact absurd h (by norm_num)
  | succ N ih =>
    intro _
    have hsplit : (intRange 1 ((N + 1 : ℕ) : ℤ)).reverse =
        ((N + 1 : ℕ) : ℤ) :: (intRange 1 ((N : ℕ) : ℤ)).reverse := by
      rw [intRange_snoc 1 _ (by push_cast; omega), List.reverse_append,
        List.reverse_singleton, List.singleton_append,
        show ((N + 1 : ℕ) : ℤ) - 1 = ((N : ℕ) : ℤ) by push_cast; ring]
    rw [hsplit, fixOctavesGo]
    cases hacc : subsAllStrong nac period maxNac ((N + 1 : ℕ) : ℤ) with
    | true =>
      rw [if_pos (rfl : true = true)]
      exact ⟨((N + 1 : ℕ) : ℤ), by push_cast; omega, le_rfl, hacc,
        fun m2 hgt hle => absurd (lt_of_lt_of_le hgt hle) (lt_irrefl _), rfl⟩
    | false =>
      rw [if_neg Bool.false_ne_true]
      by_cases hN : 1 ≤ N
      · obtain ⟨m, h1, h2, h3, h4, h5⟩ := ih hN
        refine ⟨m, h1, by push_cast; push_cast at h2; omega, h3, ?_, h5⟩
        intro m2 hgt hle
        rcases eq_or_lt_of_le hle with heq | hlt
        · rwa [heq]
        · exact h4 m2 hgt (by push_cast; push_cast at hlt; omega)
      · exfalso
        have hN0 : N = 0 := by omega
        subst hN0
        rw [show ((0 + 1 : ℕ) : ℤ) = 1 by norm_num, subsAllStrong_one] at hacc
        exact absurd hacc (by simp)

/-- Characterization of `fixOctaves`: it divides the period by the largest
multiple in `[1, maxNac / minP]` (C truncating division) whose submultiple
NAC check all passes; such a multiple always exists because `mul = 1`
passes vacuously. -/
theorem fixOctaves_spec (nac : ℤ → K) (minP : ℤ) (period : K) (maxNac : ℤ)
    (h : 1 ≤ Int.tdiv maxNac minP) :
    ∃ m : ℤ, 1 ≤ m ∧ m ≤ Int.tdiv maxNac minP ∧
      subsAllStrong nac period maxNac m = true ∧
      (∀ m2 : ℤ, m < m2 → m2 ≤ Int.tdiv maxNac minP →
        subsAllStrong nac period maxNac m2 = false) ∧
      fixOctaves nac minP period maxNac = period / (m : K) := by
  have hN : ((Int.tdiv maxNac minP).toNat : ℤ) = Int.tdiv maxNac minP := by omega
  obtain ⟨m, h1, h2, h3, h4, h5⟩ :=
    fixOctavesGo_desc nac period maxNac (Int.tdiv maxNac minP).toNat (by omega)
  rw [hN] at h2 h4
  exact ⟨m, h1, h2, h3, h4, by rw [fixOctaves, ← hN]; exact h5⟩

end OctaveLemmas

theorem tdiv_eq_ediv_of_nonneg (a b : ℤ) (ha : 0 ≤ a) (hb : 0 ≤ b) :
    a.tdiv b = a / b := by
  obtain ⟨m, rfl⟩ := Int.eq_ofNat_of_zero_le ha
  obtain ⟨n, rfl⟩ := Int.eq_ofNat_of_zero_le hb
  rfl

theorem one_le_tdiv (a b : ℤ) (hb : 0 < b) (h : b ≤ a) : 1 ≤ Int.tdiv a b := by
  rw [tdiv_eq_ediv_of_nonneg a b (by omega) (by omega)]
  exact (Int.le_ediv_iff_mul_le hb).mpr (by linarith)

theorem le_of_le_tdiv (a b m : ℤ) (hb : 0 < b) (ha : 0 ≤ a) (h : m ≤ Int.tdiv a b) :
    m * b ≤ a := by
  rw [tdiv_eq_ediv_of_nonneg a b ha (by omega)] at h
  exact (Int.le_ediv_iff_mul_le hb).mp h

section ZeroInput

variable {K : Type} [LinearOrderedField K] [FloorRing K]

theorem sumSqBegAt_zero (n minP : ℤ) (k : ℕ) :
    sumSqBegAt (fun _ => (0 : K)) n minP k = 0 := by
  induction k with
  | zero =>
    rw [sumSqBegAt, begInit]
    simp
  | succ k ih =>
    rw [sumSqBegAt, ih]
    simp

theorem sumSqEndAt_zero (n minP : ℤ) (k : ℕ) :
    sumSqEndAt (fun _ => (0 : K)) n minP k = 0 := by
  induction k with
  | zero =>
    rw [sumSqEndAt, endInit]
    simp
  | succ k ih =>
    rw [sumSqEndAt, ih]
    simp

theorem computeNac_zero (sqrtF : K → K) (n minP maxP p : ℤ) :
    computeNac sqrtF (fun _ => (0 : K)) n minP maxP p = 0 := by
  rw [computeNac]
  split_ifs with h
  · rw [nacAt, if_neg (by rw [sumSqBegAt_zero]; simp)]
  · rfl

theorem bestLag_zeroFun : bestLag (fun _ => (0 : K)) 2 3 = 2 := by
  rw [bestLag, intRange_cons 2 3 (by norm_num), show (2 : ℤ) + 1 = 3 by norm_num,
    intRange_cons 3 3 (by norm_num), show (3 : ℤ) + 1 = 4 by norm_num,
    intRange_nil 4 3 (by norm_num)]
  simp

theorem findPeak_zeroFun : findPeak (fun _ => (0 : K)) 2 3 = some (2, 2) := by
  simp only [findPeak, bestLag_zeroFun]
  norm_num

theorem fixOctaves_zeroFun : fixOctaves (fun _ => (0 : K)) 2 (2 : K) 2 = 2 := by
  rw [fixOctaves, show Int.tdiv 2 2 = 1 from rfl, intRange_cons 1 1 (by norm_num),
    show (1 : ℤ) + 1 = 2 by norm_num, intRange_nil 2 1 (by norm_num)]
  simp only [List.reverse_cons, List.reverse_nil, List.nil_append, fixOctavesGo,
    if_pos (subsAllStrong_one (fun _ => (0 : K)) (2 : K) 2)]
  norm_num

theorem estimatePeriodNac_zeroFun :
    estimatePeriodNac (fun _ => (0 : K)) 2 3 = ⟨2, 0, some 2⟩ := by
  simp only [estimatePeriodNac, findPeak_zeroFun]
  rw [fixOctaves_zeroFun]

/-- Evaluation of the full estimator on an all-zero block with
`minP = 2`, `maxP = 3`: every NAC entry is 0 (both energies vanish), the
argmax loop keeps `best = minP = 2`, the strict peak test does not fire,
interpolation shifts nothing, and octave correction accepts `mul = 1`; so
the estimator *succeeds* with period 2 and quality 0. -/
theorem estimatePeriod_zeroInput (sqrtF : K → K) (n : ℤ) :
    estimatePeriod sqrtF (fun _ => (0 : K)) n 2 3 = ⟨2, 0, some 2⟩ := by
  have hz : computeNac sqrtF (fun _ => (0 : K)) n 2 3 = fun _ => (0 : K) :=
    funext (computeNac_zero sqrtF n 2 3)
  rw [estimatePeriod, hz, estimatePeriodNac_zeroFun]

end ZeroInput

/-- C2 (amended): under the estimator preconditions, `estimatePeriod`
signals failure — period 0, quality 0, `*periodInt` left unwritten —
exactly when the NAC at the argmax is *strictly* smaller than both
neighbouring entries (the C code uses strict `<`, so ties proceed to the
success path); there is no other error signalling.  (The claim's
`≤`-version of the peak test is refuted by `estimatePeriod_failure_cex`,
and the non-finite disjunct is vacuous in exact arithmetic.) -/
theorem estimatePeriod_failure_iff {K : Type} [LinearOrderedField K] [FloorRing K]
    (sqrtF : K → K) (x : ℤ → K) (n minP maxP : ℤ)
    (h1 : 1 < minP) (h2 : minP < maxP) (hn : 2 * maxP ≤ n) :
    estimatePeriod sqrtF x n minP maxP = ⟨0, 0, none⟩ ↔
      (computeNac sqrtF x n minP maxP
          (bestLag (computeNac sqrtF x n minP maxP) minP maxP) <
        computeNac sqrtF x n minP maxP
          (bestLag (computeNac sqrtF x n minP maxP) minP maxP - 1) ∧
       computeNac sqrtF x n minP maxP
          (bestLag (computeNac sqrtF x n minP maxP) minP maxP) <
        computeNac sqrtF x n minP maxP
          (bestLag (computeNac sqrtF x n minP maxP) minP maxP + 1)) := by
  constructor
  · intro hfail
    rcases hfp : findPeak (computeNac sqrtF x n minP maxP) minP maxP with _ | ⟨b, per⟩
    · exact (findPeak_eq_none_iff (computeNac sqrtF x n minP maxP) minP maxP).mp hfp
    · rw [estimatePeriod, estimatePeriodNac, hfp] at hfail
      exact absurd (congrArg EstResult.periodInt hfail) (by simp)
  · intro hcond
    have hfp : findPeak (computeNac sqrtF x n minP maxP) minP maxP = none :=
      (findPeak_eq_none_iff (computeNac sqrtF x n minP maxP) minP maxP).mpr hcond
    rw [estimatePeriod, estimatePeriodNac, hfp]

/-- C2 witness (for the amended theorem): the iff instance on an all-zero
block with `minP = 2`, `maxP = 3`, `n = 8`. -/
theorem estimatePeriod_failure_iff_witness :
    ((1 : ℤ) < 2 ∧ (2 : ℤ) < 3 ∧ 2 * 3 ≤ (8 : ℤ)) ∧
    (estimatePeriod (fun v : ℚ => v) (fun _ => (0 : ℚ)) 8 2 3 = ⟨0, 0, none⟩ ↔
      (computeNac (fun v : ℚ => v) (fun _ => (0 : ℚ)) 8 2 3
          (bestLag (computeNac (fun v : ℚ => v) (fun _ => (0 : ℚ)) 8 2 3) 2 3) <
        computeNac (fun v : ℚ => v) (fun _ => (0 : ℚ)) 8 2 3
          (bestLag (computeNac (fun v : ℚ => v) (fun _ => (0 : ℚ)) 8 2 3) 2 3 - 1) ∧
       computeNac (fun v : ℚ => v) (fun _ => (0 : ℚ)) 8 2 3
          (bestLag (computeNac (fun v : ℚ => v) (fun _ => (0 : ℚ)) 8 2 3) 2 3) <
        computeNac (fun v : ℚ => v) (fun _ => (0 : ℚ)) 8 2 3
          (bestLag (computeNac (fun v : ℚ => v) (fun _ => (0 : ℚ)) 8 2 3) 2 3 + 1))) :=
  ⟨⟨by norm_num, by norm_num, by norm_num⟩,
    estimatePeriod_failure_iff (fun v : ℚ => v) (fun _ => (0 : ℚ)) 8 2 3
      (by norm_num) (by norm_num) (by norm_num)⟩

/-- C2 counterexample to the claim as stated: on an all-zero block (real
pipeline, `Real.sqrt`), every NAC entry is 0, so the argmax ties with both
neighbours — the claim's `≤`-peak-test condition holds — yet the estimator
does not return the failure tuple: it succeeds with period 2, quality 0,
`periodInt = 2`. -/
theorem estimatePeriod_failure_cex :
    (computeNac Real.sqrt (fun _ => (0 : ℝ)) 8 2 3
        (bestLag (computeNac Real.sqrt (fun _ => (0 : ℝ)) 8 2 3) 2 3) ≤
      computeNac Real.sqrt (fun _ => (0 : ℝ)) 8 2 3
        (bestLag (computeNac Real.sqrt (fun _ => (0 : ℝ)) 8 2 3) 2 3 - 1) ∧
     computeNac Real.sqrt (fun _ => (0 : ℝ)) 8 2 3
        (bestLag (computeNac Real.sqrt (fun _ => (0 : ℝ)) 8 2 3) 2 3) ≤
      computeNac Real.sqrt (fun _ => (0 : ℝ)) 8 2 3
        (bestLag (computeNac Real.sqrt (fun _ => (0 : ℝ)) 8 2 3) 2 3 + 1)) ∧
    estimatePeriod Real.sqrt (fun _ => (0 : ℝ)) 8 2 3 ≠ ⟨0, 0, none⟩ ∧
    estimatePeriod Real.sqrt (fun _ => (0 : ℝ)) 8 2 3 = ⟨2, 0, some 2⟩ := by
  refine ⟨⟨?_, ?_⟩, ?_, estimatePeriod_zeroInput Real.sqrt 8⟩
  · rw [computeNac_zero, computeNac_zero]
  · rw [computeNac_zero, computeNac_zero]
  · rw [estimatePeriod_zeroInput Real.sqrt 8]
    intro hcontra
    exact absurd (congrArg EstResult.periodInt hcontra) (by simp)

/-- C4: octave correction considers the hypothesized multiples `m` from
`best/min_p` (truncating division) down to 1, accepts the first `m` whose
submultiple NAC samples at `round(k·period/m)` all reach
`0.90·nac[best]`, and divides the period by it; `m = 1` is accepted
vacuously, so an accepted multiple always exists and the returned period
is `period/m` for the largest acceptable `m`. -/
theorem fixOctaves_firstAccepted {K : Type} [LinearOrderedField K] [FloorRing K]
    (nac : ℤ → K) (minP maxNac : ℤ) (period : K)
    (hminP : 0 < minP) (hbest : minP ≤ maxNac) (hper : 0 < period) :
    subsAllStrong nac period maxNac 1 = true ∧
    ∃ m : ℤ, 1 ≤ m ∧ m ≤ Int.tdiv maxNac minP ∧
      (∀ k : ℤ, 1 ≤ k → k ≤ m - 1 →
        subMulThreshold * nac maxNac ≤ nac (round ((k : K) * period / (m : K)))) ∧
      (∀ m2 : ℤ, m < m2 → m2 ≤ Int.tdiv maxNac minP →
        ¬ ∀ k : ℤ, 1 ≤ k → k ≤ m2 - 1 →
          subMulThreshold * nac maxNac ≤ nac (round ((k : K) * period / (m2 : K)))) ∧
      fixOctaves nac minP period maxNac = period / (m : K) := by
  have htd : 1 ≤ Int.tdiv maxNac minP := one_le_tdiv maxNac minP hminP hbest
  obtain ⟨m, h1, h2, h3, h4, h5⟩ := fixOctaves_spec nac minP period maxNac htd
  refine ⟨subsAllStrong_one nac period maxNac, m, h1, h2,
    (subsAllStrong_iff_round nac period maxNac m hper h1).mp h3, ?_, h5⟩
  intro m2 hgt hle hall
  have := (subsAllStrong_iff_round nac period maxNac m2 hper (by omega)).mpr hall
  rw [h4 m2 hgt hle] at this
  exact absurd this (by simp)

/-- C4 witness: with the all-zero NAC, `period = 4`, `minP = 2`,
`maxNac = 4`. -/
theorem fixOctaves_firstAccepted_witness :
    ((0 : ℤ) < 2 ∧ (2 : ℤ) ≤ 4 ∧ (0 : ℚ) < 4) ∧
    (subsAllStrong (fun _ => (0 : ℚ)) 4 4 1 = true ∧
    ∃ m : ℤ, 1 ≤ m ∧ m ≤ Int.tdiv 4 2 ∧
      (∀ k : ℤ, 1 ≤ k → k ≤ m - 1 →
        subMulThreshold * (fun _ => (0 : ℚ)) 4 ≤
          (fun _ => (0 : ℚ)) (round ((k : ℚ) * 4 / (m : ℚ)))) ∧
      (∀ m2 : ℤ, m < m2 → m2 ≤ Int.tdiv 4 2 →
        ¬ ∀ k : ℤ, 1 ≤ k → k ≤ m2 - 1 →
          subMulThreshold * (fun _ => (0 : ℚ)) 4 ≤
            (fun _ => (0 : ℚ)) (round ((k : ℚ) * 4 / (m2 : ℚ)))) ∧
      fixOctaves (fun _ => (0 : ℚ)) 2 4 4 = 4 / (m : ℚ)) :=
  ⟨⟨by norm_num, by norm_num, by norm_num⟩,
    fixOctaves_firstAccepted (fun _ => (0 : ℚ)) 2 4 (4 : ℚ)
      (by norm_num) (by norm_num) (by norm_num)⟩

/-- Concrete NAC buffer for exercising the sub-sample rejection path:
argmax at 4 (`maxP`), near-flat top so the parabolic shift 9/2 is
rejected, and a strong submultiple at lag 2 so octave correction halves
the period. -/
def nacC3 : ℤ → ℚ := fun p =>
  if p = 2 then 19 / 20
  else if p = 3 then 19 / 20
  else if p = 4 then 1
  else if p = 5 then 26 / 25
  else 0

theorem nacC3_bestLag : bestLag nacC3 2 4 = 4 := by
  rw [bestLag, intRange_cons 2 4 (by norm_num), show (2 : ℤ) + 1 = 3 by norm_num,
    intRange_cons 3 4 (by norm_num), show (3 : ℤ) + 1 = 4 by norm_num,
    intRange_cons 4 4 (by norm_num), show (4 : ℤ) + 1 = 5 by norm_num,
    intRange_nil 5 4 (by norm_num)]
  norm_num [nacC3]

theorem nacC3_findPeak : findPeak nacC3 2 4 = some (4, 4) := by
  simp only [findPeak, nacC3_bestLag]
  norm_num [nacC3, shiftMaxError, abs_of_nonneg]

theorem nacC3_subsAllStrong : subsAllStrong nacC3 (4 : ℚ) 4 2 = true := by
  rw [subsAllStrong, show (2 : ℤ) - 1 = 1 by norm_num, intRange_cons 1 1 (by norm_num),
    show (1 : ℤ) + 1 = 2 by norm_num, intRange_nil 2 1 (by norm_num), List.all_cons,
    List.all_nil]
  have hct : ctrunc ((1 : ℤ) * (4 : ℚ) / ((2 : ℤ) : ℚ) + 1 / 2) = 2 := by
    rw [ctrunc, if_neg (by norm_num)]
    norm_num
  rw [hct]
  norm_num [nacC3, subMulThreshold]

theorem nacC3_estimate : estimatePeriodNac nacC3 2 4 = ⟨2, 1, some 4⟩ := by
  simp only [estimatePeriodNac, nacC3_findPeak]
  have hfix : fixOctaves nacC3 2 (4 : ℚ) 4 = 2 := by
    rw [fixOctaves, show Int.tdiv 4 2 = 2 from rfl, intRange_cons 1 2 (by norm_num),
      show (1 : ℤ) + 1 = 2 by norm_num, intRange_cons 2 2 (by norm_num),
      show (2 : ℤ) + 1 = 3 by norm_num, intRange_nil 3 2 (by norm_num)]
    simp only [List.reverse_cons, List.reverse_nil, List.nil_append, List.cons_append,
      fixOctavesGo]
    rw [if_pos nacC3_subsAllStrong]
    norm_num
  rw [hfix]
  norm_num [nacC3]

/-- C3 counterexample to the claim as stated: on the NAC buffer `nacC3`
with `minP = 2`, `maxP = 4`, the argmax is `best = 4`, the parabolic
denominator is nonzero, the shift `9/2` exceeds `0.2·best = 4/5` and is
rejected — yet the period returned by `estimatePeriod` is `2`, not the
integer peak `4`: octave correction still divides the rejected-shift
period by an accepted submultiple. -/
theorem findPeak_shift_reject_cex :
    bestLag nacC3 2 4 = 4 ∧
    2 * nacC3 4 - nacC3 3 - nacC3 5 ≠ 0 ∧
    ¬ |1 / 2 * (nacC3 5 - nacC3 3) / (2 * nacC3 4 - nacC3 3 - nacC3 5)| <
      shiftMaxError * ((4 : ℤ) : ℚ) ∧
    findPeak nacC3 2 4 = some (4, 4) ∧
    (estimatePeriodNac nacC3 2 4).period = 2 ∧
    (2 : ℚ) ≠ ((4 : ℤ) : ℚ) := by
  refine ⟨nacC3_bestLag, by norm_num [nacC3], by norm_num [nacC3, shiftMaxError, abs_of_nonneg],
    nacC3_findPeak, ?_, by norm_num⟩
  rw [nacC3_estimate]

/-- C3 (amended): the parabolic shift is applied only when the denominator
`2M - L - R` is nonzero and `|δ| < 0.2·best`; whenever it is rejected, the
period produced by `findPeak` — the period entering octave correction —
equals the integer peak `best` exactly, and the period finally returned by
`estimatePeriod` is `best/m` for the accepted octave submultiple `m`
(which may differ from `best` when `m > 1`). -/
theorem findPeak_shift_rejected {K : Type} [LinearOrderedField K] [FloorRing K]
    (nac : ℤ → K) (minP maxP b : ℤ) (per : K)
    (h1 : 1 < minP) (h2 : minP < maxP)
    (hfp : findPeak nac minP maxP = some (b, per))
    (hden : 2 * nac b - nac (b - 1) - nac (b + 1) ≠ 0)
    (hrej : ¬ |1 / 2 * (nac (b + 1) - nac (b - 1)) /
      (2 * nac b - nac (b - 1) - nac (b + 1))| < shiftMaxError * (b : K)) :
    per = (b : K) ∧
    ∃ m : ℤ, 1 ≤ m ∧ m ≤ Int.tdiv b minP ∧
      (estimatePeriodNac nac minP maxP).period = (b : K) / (m : K) := by
  obtain ⟨hb, _, hform⟩ := findPeak_some nac minP maxP b per hfp
  have hper : per = (b : K) := hform hden hrej
  have hbmin : minP ≤ b := by
    rw [hb]
    exact (bestLag_bounds nac minP maxP (le_of_lt h2)).1
  obtain ⟨m, hm1, hm2, _, _, hfix⟩ :=
    fixOctaves_spec nac minP per b (one_le_tdiv b minP (by omega) hbmin)
  refine ⟨hper, m, hm1, hm2, ?_⟩
  simp only [estimatePeriodNac, hfp]
  rw [hfix, hper]

/-- C3 witness (for the amended theorem): on `nacC3` the rejected shift
leaves `per = best = 4` and the estimator returns `4/m` (in fact `m = 2`). -/
theorem findPeak_shift_rejected_witness :
    ((1 : ℤ) < 2 ∧ (2 : ℤ) < 4 ∧ findPeak nacC3 2 4 = some (4, 4) ∧
      2 * nacC3 4 - nacC3 3 - nacC3 5 ≠ 0 ∧
      ¬ |1 / 2 * (nacC3 5 - nacC3 3) / (2 * nacC3 4 - nacC3 3 - nacC3 5)| <
        shiftMaxError * ((4 : ℤ) : ℚ)) ∧
    ((4 : ℚ) = ((4 : ℤ) : ℚ) ∧
      ∃ m : ℤ, 1 ≤ m ∧ m ≤ Int.tdiv 4 2 ∧
        (estimatePeriodNac nacC3 2 4).period = ((4 : ℤ) : ℚ) / (m : ℚ)) := by
  have hden : 2 * nacC3 4 - nacC3 3 - nacC3 5 ≠ 0 := by norm_num [nacC3]
  have hrej : ¬ |1 / 2 * (nacC3 5 - nacC3 3) / (2 * nacC3 4 - nacC3 3 - nacC3 5)| <
      shiftMaxError * ((4 : ℤ) : ℚ) := by norm_num [nacC3, shiftMaxError, abs_of_nonneg]
  have h34 : ((3 : ℤ) : ℤ) = 4 - 1 := by norm_num
  have main := findPeak_shift_rejected nacC3 2 4 4 (4 : ℚ) (by norm_num) (by norm_num)
    nacC3_findPeak (by rw [show (4 : ℤ) - 1 = 3 by norm_num, show (4 : ℤ) + 1 = 5 by norm_num]; exact hden)
    (by rw [show (4 : ℤ) - 1 = 3 by norm_num, show (4 : ℤ) + 1 = 5 by norm_num]; exact hrej)
  exact ⟨⟨by norm_num, by norm_num, nacC3_findPeak, hden, hrej⟩, main⟩

/-- C10: whenever `estimatePeriod` succeeds (the out-parameter `periodInt`
is written, i.e. `findPeak` found an interior peak), the returned
fractional period is at least `0.8·minP`, hence strictly positive: the
accepted parabolic shift is smaller than `0.2·best` in magnitude and the
octave divisor never exceeds `best/minP`.  Consequently the analyzer's
`freq = rate/period` never divides by zero and is positive. -/
theorem estimatePeriod_success_positive {K : Type} [LinearOrderedField K] [FloorRing K]
    (sqrtF : K → K) (x : ℤ → K) (n minP maxP : ℤ)
    (h1 : 1 < minP) (h2 : minP < maxP) (hn : 2 * maxP ≤ n)
    (hsucc : (estimatePeriod sqrtF x n minP maxP).periodInt ≠ none) :
    (4 / 5 : K) * (minP : K) ≤ (estimatePeriod sqrtF x n minP maxP).period ∧
    0 < (estimatePeriod sqrtF x n minP maxP).period ∧
    ∀ rate : K, 0 < rate → 0 < rate / (estimatePeriod sqrtF x n minP maxP).period := by
  rcases hfp : findPeak (computeNac sqrtF x n minP maxP) minP maxP with _ | ⟨b, per⟩
  · exact absurd (by rw [estimatePeriod, estimatePeriodNac, hfp]) hsucc
  · obtain ⟨hb, hcases, _⟩ :=
      findPeak_some (computeNac sqrtF x n minP maxP) minP maxP b per hfp
    have hbmin : minP ≤ b := by
      rw [hb]
      exact (bestLag_bounds (computeNac sqrtF x n minP maxP) minP maxP (le_of_lt h2)).1
    have hbK : (0 : K) < (b : K) := by
      have : (0 : ℤ) < b := by omega
      exact_mod_cast this
    have hper : (4 / 5 : K) * (b : K) ≤ per := by
      rcases hcases with hc | ⟨_, hc, habs⟩
      · rw [hc]
        nlinarith
      · rw [hc]
        have := (abs_lt.mp habs).1
        rw [shiftMaxError] at this
        nlinarith
    obtain ⟨m, hm1, hm2, _, _, hfix⟩ :=
      fixOctaves_spec (computeNac sqrtF x n minP maxP) minP per b
        (one_le_tdiv b minP (by omega) hbmin)
    have hmords : m * minP ≤ b := le_of_le_tdiv b minP m (by omega) (by omega) hm2
    have hmK : (0 : K) < (m : K) := by
      have : (0 : ℤ) < m := by omega
      exact_mod_cast this
    have hminK : (0 : K) < (minP : K) := by
      have : (0 : ℤ) < minP := by omega
      exact_mod_cast this
    have hres : (estimatePeriod sqrtF x n minP maxP).period = per / (m : K) := by
      rw [estimatePeriod]
      simp only [estimatePeriodNac, hfp]
      rw [hfix]
    have hbound : (4 / 5 : K) * (minP : K) ≤ per / (m : K) := by
      rw [le_div_iff₀ hmK]
      have hcast : (m : K) * (minP : K) ≤ (b : K) := by
        rw [show (m : K) * (minP : K) = ((m * minP : ℤ) : K) by push_cast; ring]
        exact_mod_cast hmords
      nlinarith
    have hpos : 0 < per / (m : K) := by
      apply div_pos _ hmK
      nlinarith
    rw [hres]
    exact ⟨hbound, hpos, fun rate hrate => div_pos hrate hpos⟩

/-- C10 witness: the all-zero block (real pipeline) succeeds with period 2
and `minP = 2`: the conclusion `0.8·2 ≤ 2`, `0 < 2` holds. -/
theorem estimatePeriod_success_positive_witness :
    ((1 : ℤ) < 2 ∧ (2 : ℤ) < 3 ∧ 2 * 3 ≤ (8 : ℤ) ∧
      (estimatePeriod Real.sqrt (fun _ => (0 : ℝ)) 8 2 3).periodInt ≠ none) ∧
    ((4 / 5 : ℝ) * ((2 : ℤ) : ℝ) ≤ (estimatePeriod Real.sqrt (fun _ => (0 : ℝ)) 8 2 3).period ∧
      0 < (estimatePeriod Real.sqrt (fun _ => (0 : ℝ)) 8 2 3).period ∧
      ∀ rate : ℝ, 0 < rate →
        0 < rate / (estimatePeriod Real.sqrt (fun _ => (0 : ℝ)) 8 2 3).period) := by
  have hne : (estimatePeriod Real.sqrt (fun _ => (0 : ℝ)) 8 2 3).periodInt ≠ none := by
    rw [estimatePeriod_zeroInput Real.sqrt 8]
    simp
  exact ⟨⟨by norm_num, by norm_num, by norm_num, hne⟩,
    estimatePeriod_success_positive Real.sqrt (fun _ => (0 : ℝ)) 8 2 3
      (by norm_num) (by norm_num) (by norm_num) hne⟩

section Detect

variable {K : Type} [LinearOrderedField K] [FloorRing K]

/-- PEAKS_SIZE from detect.c. -/
def PEAKS_SIZE : ℕ := 100

/-- MINIMUM_QUALITY from detect.c: 0.85. -/
def MINIMUM_QUALITY : K := 17 / 20

/-- NOISE_THRESHOLD from detect.c: 0.1. -/
def NOISE_THRESHOLD : K := 1 / 10

/-- RAISE_THRESHOLD from detect.c: 0.12. -/
def RAISE_THRESHOLD : K := 3 / 25

/-- DetectContext (detect.c, struct _DetectContext): `peaks` is the
circular 100-element array, modelled as a total function read/written at
indices kept below PEAKS_SIZE. -/
structure DetectContext (K : Type) where
  rate : ℕ
  minPeriod : ℤ
  maxPeriod : ℤ
  lastDetected : ℤ
  peaks : ℕ → K
  lastPeak : ℕ
  droppedSamples : ℕ

/-- Events the analyzer emits: `guiHighlightFrets frets` is `noteOn frets`
and `guiResetHighlights` is `noteOff`. -/
inductive DEvent : Type
  | noteOn (frets : List ℤ)
  | noteOff
deriving DecidableEq

/-- Whether an event is a NoteOn. -/
def isNoteOn : DEvent → Bool
  | DEvent.noteOn _ => true
  | DEvent.noteOff => false

/-- Inner loop of the per-period amplitude analysis (detect.c lines
274-279): the peak of `|buf[j+i]|` over `i ∈ [0, period)`, starting from
`peak = 0`. -/
def windowPeak (buf : ℤ → K) (j period : ℤ) : K :=
  (intRange 0 (period - 1)).foldl
    (fun peak i => if peak < |buf (j + i)| then |buf (j + i)| else peak) 0

/-- The window starts visited by the loop
`for(j = 0, limit = size - period; j < limit; j += period)` (detect.c line
271).  The loop advances by `period ≥ 1` each iteration, so
`size.toNat + 1` steps of fuel are enough to reach the exit condition. -/
def windowStartsAux (size period : ℤ) : ℕ → ℤ → List ℤ
  | 0, _ => []
  | fuel + 1, j =>
    if j < size - period then j :: windowStartsAux size period fuel (j + period)
    else []

/-- All window starts of the per-period loop. -/
def windowStarts (size period : ℤ) : List ℤ :=
  windowStartsAux size period (size.toNat + 1) 0

/-- State threaded through the per-period loop. -/
structure PeakScanState (K : Type) where
  peaks : ℕ → K
  lastPeak : ℕ
  quickRaise : Bool
  minSurpassed : Bool

/-- One iteration of the per-period loop (detect.c lines 271-291): the
quick-raise comparison reads `peaks[lastPeak]` *before* `lastPeak` is
advanced (mod PEAKS_SIZE) and the new peak stored. -/
def peaksIter (buf : ℤ → K) (period : ℤ) (st : PeakScanState K) (j : ℤ) :
    PeakScanState K :=
  let peak := windowPeak buf j period
  let qr := st.quickRaise || decide (RAISE_THRESHOLD < peak - st.peaks st.lastPeak)
  let lp := (st.lastPeak + 1) % PEAKS_SIZE
  { peaks := Function.update st.peaks lp peak
    lastPeak := lp
    quickRaise := qr
    minSurpassed := st.minSurpassed || decide (NOISE_THRESHOLD < peak) }

/-- The whole per-period loop, started from the context's peaks history
with both flags false. -/
def peaksScan (buf : ℤ → K) (size period : ℤ) (peaks0 : ℕ → K) (lastPeak0 : ℕ) :
    PeakScanState K :=
  (windowStarts size period).foldl (peaksIter buf period) ⟨peaks0, lastPeak0, false, false⟩

/-- analyzeFiltered (detect.c, lines 241-315).  `freqToNote` abstracts
`frequencyToSemitones` (a base-2 logarithm, not available over a general
field); the real pipeline instantiates it accordingly.  All three
post-loop outcomes reset `droppedSamples`. -/
def analyzeFiltered (freqToNote : K → ℤ) (ctx : DetectContext K) (buf : ℤ → K)
    (size : ℤ) (freq : K) (period : ℤ) : DetectContext K × List DEvent :=
  let note := freqToNote freq
  if noteToFretsCount note STANDARD_TUNING GUITAR_FRETS = 0 then
    ({ ctx with droppedSamples := ctx.droppedSamples + size.toNat }, [])
  else
    let st := peaksScan buf size period ctx.peaks ctx.lastPeak
    if st.minSurpassed = false then
      ({ ctx with
          peaks := st.peaks
          lastPeak := st.lastPeak
          droppedSamples := 0
          lastDetected := INVALID_SEMITONE }, [DEvent.noteOff])
    else
      let noteDelta := (note - ctx.lastDetected).natAbs % 12
      if st.quickRaise = true ∨ (noteDelta ≠ 0 ∧ noteDelta ≠ 7) ∨
          ctx.lastDetected = INVALID_SEMITONE then
        ({ ctx with
            peaks := st.peaks
            lastPeak := st.lastPeak
            droppedSamples := 0
            lastDetected := note },
          [DEvent.noteOn (noteToFrets note STANDARD_TUNING GUITAR_FRETS)])
      else
        ({ ctx with
            peaks := st.peaks
            lastPeak := st.lastPeak
            droppedSamples := 0 }, [])

/-- detectAnalyze (detect.c, lines 188-239).  The ring buffer is modelled
by the sample array `buf` and the number `available` of available floats;
advancing the read pointer has no observable effect on the analysis state.
On the estimator failure path `intPeriod` is uninitialized in C, but the
gate `quality >= MINIMUM_QUALITY` already fails there (`*q` is 0), so the
gate is modelled as false whenever `periodInt` is unwritten. -/
def detectAnalyze (sqrtF : K → K) (freqToNote : K → ℤ) (ctx : DetectContext K)
    (buf : ℤ → K) (available : ℕ) : DetectContext K × List DEvent :=
  if (available : ℤ) < 2 * ctx.maxPeriod then (ctx, [])
  else
    let st1 : DetectContext K × List DEvent :=
      if ctx.rate < ctx.droppedSamples then
        ({ ctx with
            lastDetected := INVALID_SEMITONE
            droppedSamples := 0 },
          [DEvent.noteOff])
      else (ctx, [])
    let r := estimatePeriod sqrtF buf (available : ℤ) ctx.minPeriod ctx.maxPeriod
    match r.periodInt with
    | some ip =>
      if 0 < ip ∧ MINIMUM_QUALITY ≤ r.quality then
        let out := analyzeFiltered freqToNote st1.1 buf (available : ℤ)
          ((ctx.rate : K) / r.period) ip
        (out.1, st1.2 ++ out.2)
      else ({ st1.1 with droppedSamples := st1.1.droppedSamples + available }, st1.2)
    | none => ({ st1.1 with droppedSamples := st1.1.droppedSamples + available }, st1.2)

end Detect

/-- C6: in step 7 of the pipeline (block playable and above the noise
threshold), the analyzer emits `NoteOn(note, frets)` and sets
`lastDetected = note` iff `quickRaise` is true, or `lastDetected` is
INVALID, or `delta = |note - lastDetected| mod 12` is neither 0 nor 7;
otherwise the reading is absorbed silently: no event, `lastDetected`
unchanged. -/
theorem analyzeFiltered_noteOn_iff {K : Type} [LinearOrderedField K] [FloorRing K]
    (freqToNote : K → ℤ) (ctx : DetectContext K) (buf : ℤ → K)
    (size : ℤ) (freq : K) (period : ℤ)
    (hplay : noteToFretsCount (freqToNote freq) STANDARD_TUNING GUITAR_FRETS ≠ 0)
    (hmin : (peaksScan buf size period ctx.peaks ctx.lastPeak).minSurpassed = true) :
    (((analyzeFiltered freqToNote ctx buf size freq period).2 =
        [DEvent.noteOn (noteToFrets (freqToNote freq) STANDARD_TUNING GUITAR_FRETS)] ∧
      (analyzeFiltered freqToNote ctx buf size freq period).1.lastDetected =
        freqToNote freq) ↔
      ((peaksScan buf size period ctx.peaks ctx.lastPeak).quickRaise = true ∨
        ctx.lastDetected = INVALID_SEMITONE ∨
        ((freqToNote freq - ctx.lastDetected).natAbs % 12 ≠ 0 ∧
          (freqToNote freq - ctx.lastDetected).natAbs % 12 ≠ 7))) ∧
    (¬ ((peaksScan buf size period ctx.peaks ctx.lastPeak).quickRaise = true ∨
        ctx.lastDetected = INVALID_SEMITONE ∨
        ((freqToNote freq - ctx.lastDetected).natAbs % 12 ≠ 0 ∧
          (freqToNote freq - ctx.lastDetected).natAbs % 12 ≠ 7)) →
      (analyzeFiltered freqToNote ctx buf size freq period).2 = [] ∧
      (analyzeFiltered freqToNote ctx buf size freq period).1.lastDetected =
        ctx.lastDetected) := by
  simp only [analyzeFiltered]
  rw [if_neg hplay,
    if_neg (show ¬ ((peaksScan buf size period ctx.peaks ctx.lastPeak).minSurpassed
      = false) by rw [hmin]; simp)]
  by_cases hc : ((peaksScan buf size period ctx.peaks ctx.lastPeak).quickRaise = true ∨
      ((freqToNote freq - ctx.lastDetected).natAbs % 12 ≠ 0 ∧
        (freqToNote freq - ctx.lastDetected).natAbs % 12 ≠ 7) ∨
      ctx.lastDetected = INVALID_SEMITONE)
  · rw [if_pos hc]
    constructor
    · constructor
      · intro _
        tauto
      · intro _
        exact ⟨rfl, rfl⟩
    · intro hnc
      exact absurd (by tauto : ((peaksScan buf size period ctx.peaks
        ctx.lastPeak).quickRaise = true ∨
        ((freqToNote freq - ctx.lastDetected).natAbs % 12 ≠ 0 ∧
          (freqToNote freq - ctx.lastDetected).natAbs % 12 ≠ 7) ∨
        ctx.lastDetected = INVALID_SEMITONE) → False) (by intro h2; exact h2 hc)
  · rw [if_neg hc]
    constructor
    · constructor
      · intro hl
        exact absurd hl.1 (by simp)
      · intro hr
        exact absurd (by tauto) hc
    · intro _
      exact ⟨rfl, rfl⟩

theorem windowStarts_4_2 : windowStarts 4 2 = [(0 : ℤ)] := by
  rw [windowStarts, show ((4 : ℤ).toNat + 1) = 5 from rfl]
  rw [windowStartsAux, if_pos (by norm_num : (0 : ℤ) < 4 - 2)]
  rw [show (0 : ℤ) + 2 = 2 by norm_num, windowStartsAux,
    if_neg (by norm_num : ¬ (2 : ℤ) < 4 - 2)]

theorem windowPeak_ones : windowPeak (fun _ => (1 : ℚ)) 0 2 = 1 := by
  rw [windowPeak, show (2 : ℤ) - 1 = 1 by norm_num, intRange_cons 0 1 (by norm_num),
    show (0 : ℤ) + 1 = 1 by norm_num, intRange_cons 1 1 (by norm_num),
    show (1 : ℤ) + 1 = 2 by norm_num, intRange_nil 2 1 (by norm_num)]
  norm_num

theorem peaksScan_ones :
    peaksScan (fun _ => (1 : ℚ)) 4 2 (fun _ => (0 : ℚ)) 99 =
      ⟨Function.update (fun _ => (0 : ℚ)) 0 1, 0, true, true⟩ := by
  rw [peaksScan, windowStarts_4_2, List.foldl_cons, List.foldl_nil, peaksIter]
  simp only [windowPeak_ones]
  norm_num [RAISE_THRESHOLD, NOISE_THRESHOLD, PEAKS_SIZE]

/-- C6 witness: on a unit-amplitude block from an INVALID (silent) state
with note 48 (A4), the condition holds (both quickRaise and the INVALID
disjunct) and a NoteOn(48) is emitted. -/
theorem analyzeFiltered_noteOn_iff_witness :
    (noteToFretsCount ((fun _ : ℚ => (48 : ℤ)) (1 : ℚ)) STANDARD_TUNING GUITAR_FRETS ≠ 0 ∧
      (peaksScan (fun _ => (1 : ℚ)) 4 2
        (DetectContext.mk 10 2 3 INVALID_SEMITONE (fun _ => (0 : ℚ)) 99 0).peaks
        (DetectContext.mk 10 2 3 INVALID_SEMITONE (fun _ => (0 : ℚ)) 99 0).lastPeak).minSurpassed
        = true) ∧
    ((((analyzeFiltered (fun _ : ℚ => (48 : ℤ))
        (DetectContext.mk 10 2 3 INVALID_SEMITONE (fun _ => (0 : ℚ)) 99 0)
        (fun _ => (1 : ℚ)) 4 (1 : ℚ) 2).2 =
        [DEvent.noteOn (noteToFrets ((fun _ : ℚ => (48 : ℤ)) (1 : ℚ)) STANDARD_TUNING
          GUITAR_FRETS)] ∧
      (analyzeFiltered (fun _ : ℚ => (48 : ℤ))
        (DetectContext.mk 10 2 3 INVALID_SEMITONE (fun _ => (0 : ℚ)) 99 0)
        (fun _ => (1 : ℚ)) 4 (1 : ℚ) 2).1.lastDetected = (fun _ : ℚ => (48 : ℤ)) (1 : ℚ)) ↔
      ((peaksScan (fun _ => (1 : ℚ)) 4 2
          (DetectContext.mk 10 2 3 INVALID_SEMITONE (fun _ => (0 : ℚ)) 99 0).peaks
          (DetectContext.mk 10 2 3 INVALID_SEMITONE (fun _ => (0 : ℚ)) 99 0).lastPeak).quickRaise
          = true ∨
        (DetectContext.mk 10 2 3 INVALID_SEMITONE (fun _ => (0 : ℚ)) 99 0).lastDetected =
          INVALID_SEMITONE ∨
        (((fun _ : ℚ => (48 : ℤ)) (1 : ℚ) -
            (DetectContext.mk 10 2 3 INVALID_SEMITONE (fun _ => (0 : ℚ)) 99 0).lastDetected).natAbs
            % 12 ≠ 0 ∧
          ((fun _ : ℚ => (48 : ℤ)) (1 : ℚ) -
            (DetectContext.mk 10 2 3 INVALID_SEMITONE (fun _ => (0 : ℚ)) 99 0).lastDetected).natAbs
            % 12 ≠ 7))) ∧
      (¬ ((peaksScan (fun _ => (1 : ℚ)) 4 2
          (DetectContext.mk 10 2 3 INVALID_SEMITONE (fun _ => (0 : ℚ)) 99 0).peaks
          (DetectContext.mk 10 2 3 INVALID_SEMITONE (fun _ => (0 : ℚ)) 99 0).lastPeak).quickRaise
          = true ∨
        (DetectContext.mk 10 2 3 INVALID_SEMITONE (fun _ => (0 : ℚ)) 99 0).lastDetected =
          INVALID_SEMITONE ∨
        (((fun _ : ℚ => (48 : ℤ)) (1 : ℚ) -
            (DetectContext.mk 10 2 3 INVALID_SEMITONE (fun _ => (0 : ℚ)) 99 0).lastDetected).natAbs
            % 12 ≠ 0 ∧
          ((fun _ : ℚ => (48 : ℤ)) (1 : ℚ) -
            (DetectContext.mk 10 2 3 INVALID_SEMITONE (fun _ => (0 : ℚ)) 99 0).lastDetected).natAbs
            % 12 ≠ 7)) →
        (analyzeFiltered (fun _ : ℚ => (48 : ℤ))
          (DetectContext.mk 10 2 3 INVALID_SEMITONE (fun _ => (0 : ℚ)) 99 0)
          (fun _ => (1 : ℚ)) 4 (1 : ℚ) 2).2 = [] ∧
        (analyzeFiltered (fun _ : ℚ => (48 : ℤ))
          (DetectContext.mk 10 2 3 INVALID_SEMITONE (fun _ => (0 : ℚ)) 99 0)
          (fun _ => (1 : ℚ)) 4 (1 : ℚ) 2).1.lastDetected =
          (DetectContext.mk 10 2 3 INVALID_SEMITONE (fun _ => (0 : ℚ)) 99 0).lastDetected)) := by
  have hplay : noteToFretsCount ((fun _ : ℚ => (48 : ℤ)) (1 : ℚ)) STANDARD_TUNING
      GUITAR_FRETS ≠ 0 := by
    norm_num [noteToFretsCount, STANDARD_TUNING, GUITAR_FRETS, noteToFretsGo]
  have hmin : (peaksScan (fun _ => (1 : ℚ)) 4 2
      (DetectContext.mk 10 2 3 INVALID_SEMITONE (fun _ => (0 : ℚ)) 99 0).peaks
      (DetectContext.mk 10 2 3 INVALID_SEMITONE (fun _ => (0 : ℚ)) 99 0).lastPeak).minSurpassed
      = true := by
    rw [show (DetectContext.mk 10 2 3 INVALID_SEMITONE (fun _ => (0 : ℚ)) 99 0).peaks =
      (fun _ => (0 : ℚ)) from rfl]
    rw [show (DetectContext.mk 10 2 3 INVALID_SEMITONE (fun _ => (0 : ℚ)) 99 0).lastPeak =
      99 from rfl]
    rw [peaksScan_ones]
  exact ⟨⟨hplay, hmin⟩,
    analyzeFiltered_noteOn_iff (fun _ : ℚ => (48 : ℤ))
      (DetectContext.mk 10 2 3 INVALID_SEMITONE (fun _ => (0 : ℚ)) 99 0)
      (fun _ => (1 : ℚ)) 4 (1 : ℚ) 2 hplay hmin⟩

theorem windowStartsAux_mem (size period : ℤ) (hper : 0 < period) :
    ∀ (fuel : ℕ) (j0 : ℤ), (size - period - j0).toNat < fuel →
      ∀ j : ℤ, (j ∈ windowStartsAux size period fuel j0 ↔
        ∃ k : ℕ, j = j0 + (k : ℤ) * period ∧ j < size - period) := by
  intro fuel
  induction fuel with
  | zero => intro j0 h; exact absurd h (by omega)
  | succ fuel ih =>
    intro j0 hfuel j
    rw [windowStartsAux]
    by_cases hj : j0 < size - period
    · rw [if_pos hj, List.mem_cons]
      constructor
      · rintro (rfl | hmem)
        · exact ⟨0, by push_cast; ring, hj⟩
        · obtain ⟨k, hk, hlt⟩ := (ih (j0 + period) (by omega) j).mp hmem
          refine ⟨k + 1, ?_, hlt⟩
          rw [hk]
          push_cast
          ring
      · rintro ⟨k, rfl, hlt⟩
        cases k with
        | zero => left; push_cast; ring
        | succ k =>
          right
          apply (ih (j0 + period) (by omega) _).mpr
          exact ⟨k, by push_cast; ring, hlt⟩
    · rw [if_neg hj]
      simp only [List.not_mem_nil, false_iff]
      rintro ⟨k, rfl, hlt⟩
      have hk : 0 ≤ (k : ℤ) * period := mul_nonneg (by positivity) (le_of_lt hper)
      linarith

theorem windowStarts_mem (size period : ℤ) (hper : 0 < period) (j : ℤ) :
    j ∈ windowStarts size period ↔
      ∃ k : ℕ, j = (k : ℤ) * period ∧ j + period < size := by
  rw [windowStarts,
    windowStartsAux_mem size period hper (size.toNat + 1) 0 (by omega) j]
  constructor
  · rintro ⟨k, hk, hlt⟩
    exact ⟨k, by omega, by omega⟩
  · rintro ⟨k, hk, hlt⟩
    exact ⟨k, by omega, by omega⟩

section DetectLemmas

variable {K : Type} [LinearOrderedField K] [FloorRing K]

theorem peaksFold_spec (buf : ℤ → K) (period : ℤ) :
    ∀ (starts : List ℤ) (st0 : PeakScanState K), st0.lastPeak < PEAKS_SIZE →
      (starts.foldl (peaksIter buf period) st0).lastPeak < PEAKS_SIZE ∧
      (starts.foldl (peaksIter buf period) st0).lastPeak =
        (st0.lastPeak + starts.length) % PEAKS_SIZE ∧
      ((starts.foldl (peaksIter buf period) st0).quickRaise = true ↔
        st0.quickRaise = true ∨ ∃ i : ℕ, i < starts.length ∧
          RAISE_THRESHOLD <
            (starts.map (fun j => windowPeak buf j period)).getD i 0 -
            (st0.peaks st0.lastPeak ::
              starts.map (fun j => windowPeak buf j period)).getD i 0) ∧
      ((starts.foldl (peaksIter buf period) st0).minSurpassed = true ↔
        st0.minSurpassed = true ∨
        ∃ p ∈ starts.map (fun j => windowPeak buf j period), NOISE_THRESHOLD < p) := by
  intro starts
  induction starts with
  | nil =>
    intro st0 h0
    refine ⟨h0, by simpa using (Nat.mod_eq_of_lt h0).symm, by simp, by simp⟩
  | cons j rest ih =>
    intro st0 h0
    have hlp1 : ((st0.lastPeak + 1) % PEAKS_SIZE) < PEAKS_SIZE :=
      Nat.mod_lt _ (by norm_num [PEAKS_SIZE])
    obtain ⟨ha, hb, hc, hd⟩ := ih (peaksIter buf period st0 j) hlp1
    have hst1peaks : (peaksIter buf period st0 j).peaks
        (peaksIter buf period st0 j).lastPeak = windowPeak buf j period := by
      rw [peaksIter]
      exact Function.update_same _ _ _
    have hst1lp : (peaksIter buf period st0 j).lastPeak =
        (st0.lastPeak + 1) % PEAKS_SIZE := rfl
    have hst1qr : ((peaksIter buf period st0 j).quickRaise = true ↔
        st0.quickRaise = true ∨
        RAISE_THRESHOLD < windowPeak buf j period - st0.peaks st0.lastPeak) := by
      rw [peaksIter]
      simp [Bool.or_eq_true, decide_eq_true_iff]
    have hst1ms : ((peaksIter buf period st0 j).minSurpassed = true ↔
        st0.minSurpassed = true ∨ NOISE_THRESHOLD < windowPeak buf j period) := by
      rw [peaksIter]
      simp [Bool.or_eq_true, decide_eq_true_iff]
    rw [List.foldl_cons]
    refine ⟨ha, ?_, ?_, ?_⟩
    · rw [hb, hst1lp, List.length_cons, Nat.mod_add_mod]
      ring_nf
    · rw [hc, hst1qr, hst1peaks]
      constructor
      · rintro ((hq | hfirst) | ⟨i, hi, hx⟩)
        · exact Or.inl hq
        · refine Or.inr ⟨0, by simp, ?_⟩
          simpa using hfirst
        · refine Or.inr ⟨i + 1, by simpa using hi, ?_⟩
          simpa using hx
      · rintro (hq | ⟨i, hi, hx⟩)
        · exact Or.inl (Or.inl hq)
        · cases i with
          | zero =>
            refine Or.inl (Or.inr ?_)
            simpa using hx
          | succ i =>
            refine Or.inr ⟨i, by simpa using hi, ?_⟩
            simpa using hx
    · rw [hd, hst1ms]
      constructor
      · rintro ((hq | hfirst) | ⟨p, hp, hx⟩)
        · exact Or.inl hq
        · refine Or.inr ⟨windowPeak buf j period, ?_, hfirst⟩
          rw [List.map_cons]
          exact List.mem_cons_self _ _
        · refine Or.inr ⟨p, ?_, hx⟩
          rw [List.map_cons]
          exact List.mem_cons_of_mem _ hp
      · rintro (hq | ⟨p, hp, hx⟩)
        · exact Or.inl (Or.inl hq)
        · rw [List.map_cons] at hp
          rcases List.mem_cons.mp hp with heq | hmem
          · exact Or.inl (Or.inr (heq ▸ hx))
          · exact Or.inr ⟨p, hmem, hx⟩

end DetectLemmas

/-- C7 (amended): the per-period amplitude loop computes an
absolute-amplitude window peak exactly for the starts `j = k·period_int`
with `j + period_int < available` (STRICT: the loop condition is
`j < size - period`, so a final window ending exactly at `available` is
not processed); each peak's quick-raise comparison is made against the
value held at `peaks[lastPeak]` before that period's update — i.e. against
the previous window's stored peak (or the pre-loop history entry for the
first window) — and only afterwards is `lastPeak` advanced cyclically
modulo `PEAKS_SIZE = 100` and the new peak stored there. -/
theorem peaksScan_spec {K : Type} [LinearOrderedField K] [FloorRing K]
    (buf : ℤ → K) (size period : ℤ) (peaks0 : ℕ → K) (lastPeak0 : ℕ)
    (hper : 0 < period) (hlp : lastPeak0 < PEAKS_SIZE) :
    (∀ j : ℤ, j ∈ windowStarts size period ↔
      ∃ k : ℕ, j = (k : ℤ) * period ∧ j + period < size) ∧
    (peaksScan buf size period peaks0 lastPeak0).lastPeak =
      (lastPeak0 + (windowStarts size period).length) % PEAKS_SIZE ∧
    ((peaksScan buf size period peaks0 lastPeak0).quickRaise = true ↔
      ∃ i : ℕ, i < (windowStarts size period).length ∧
        RAISE_THRESHOLD <
          ((windowStarts size period).map (fun j => windowPeak buf j period)).getD i 0 -
          (peaks0 lastPeak0 ::
            (windowStarts size period).map (fun j => windowPeak buf j period)).getD i 0) ∧
    ((peaksScan buf size period peaks0 lastPeak0).minSurpassed = true ↔
      ∃ p ∈ (windowStarts size period).map (fun j => windowPeak buf j period),
        NOISE_THRESHOLD < p) := by
  obtain ⟨_, hb, hc, hd⟩ :=
    peaksFold_spec buf period (windowStarts size period)
      (⟨peaks0, lastPeak0, false, false⟩ : PeakScanState K) hlp
  refine ⟨windowStarts_mem size period hper, hb, ?_, ?_⟩
  · rw [peaksScan, hc]
    simp
  · rw [peaksScan, hd]
    simp

/-- C7 counterexample to the claim as stated: with `period_int = 2` and
`available = 4`, the window start `j = 1·2 = 2` satisfies
`j + period_int ≤ available` but is NOT processed (the loop bound is
strict), so only one peak is computed and stored: after the scan
`lastPeak` has advanced once (99 → 0), not twice. -/
theorem peaksScan_boundary_cex :
    windowStarts 4 2 = [(0 : ℤ)] ∧
    (1 : ℤ) * 2 + 2 ≤ 4 ∧
    (1 : ℤ) * 2 ∉ windowStarts 4 2 ∧
    (peaksScan (fun _ => (1 : ℚ)) 4 2 (fun _ => (0 : ℚ)) 99).lastPeak = 0 := by
  refine ⟨windowStarts_4_2, by norm_num, ?_, ?_⟩
  · rw [windowStarts_4_2]
    norm_num
  · rw [peaksScan_ones]

/-- C7 witness (for the amended theorem): the instance on the
unit-amplitude block with `size = 4`, `period = 2`, history at index 99. -/
theorem peaksScan_spec_witness :
    ((0 : ℤ) < 2 ∧ 99 < PEAKS_SIZE) ∧
    ((∀ j : ℤ, j ∈ windowStarts 4 2 ↔
      ∃ k : ℕ, j = (k : ℤ) * 2 ∧ j + 2 < 4) ∧
    (peaksScan (fun _ => (1 : ℚ)) 4 2 (fun _ => (0 : ℚ)) 99).lastPeak =
      (99 + (windowStarts 4 2).length) % PEAKS_SIZE ∧
    ((peaksScan (fun _ => (1 : ℚ)) 4 2 (fun _ => (0 : ℚ)) 99).quickRaise = true ↔
      ∃ i : ℕ, i < (windowStarts 4 2).length ∧
        RAISE_THRESHOLD <
          ((windowStarts 4 2).map (fun j => windowPeak (fun _ => (1 : ℚ)) j 2)).getD i 0 -
          ((fun _ => (0 : ℚ)) 99 ::
            (windowStarts 4 2).map (fun j => windowPeak (fun _ => (1 : ℚ)) j 2)).getD i 0) ∧
    ((peaksScan (fun _ => (1 : ℚ)) 4 2 (fun _ => (0 : ℚ)) 99).minSurpassed = true ↔
      ∃ p ∈ (windowStarts 4 2).map (fun j => windowPeak (fun _ => (1 : ℚ)) j 2),
        NOISE_THRESHOLD < p)) :=
  ⟨⟨by norm_num, by norm_num [PEAKS_SIZE]⟩,
    peaksScan_spec (fun _ => (1 : ℚ)) 4 2 (fun _ => (0 : ℚ)) 99
      (by norm_num) (by norm_num [PEAKS_SIZE])⟩

section SilenceLemmas

variable {K : Type} [LinearOrderedField K] [FloorRing K]

theorem estimatePeriod_zero_quality (sqrtF : K → K) (n minP maxP : ℤ) :
    (estimatePeriod sqrtF (fun _ => (0 : K)) n minP maxP).quality = 0 := by
  have hz : computeNac sqrtF (fun _ => (0 : K)) n minP maxP = fun _ => (0 : K) :=
    funext (computeNac_zero sqrtF n minP maxP)
  rw [estimatePeriod, hz]
  rcases hfp : findPeak (fun _ => (0 : K)) minP maxP with _ | ⟨b, per⟩ <;>
    simp [estimatePeriodNac, hfp]

/-- One `detectAnalyze` call on an all-zero block with enough samples:
the periodicity-quality gate always fails (`quality = 0 < 0.85`), so the
block is dropped; if the stale-note timeout has been reached a NoteOff is
emitted first, `lastDetected` is invalidated, and `droppedSamples`
restarts from 0 before the block's samples are added. -/
theorem detectAnalyze_zero_step (sqrtF : K → K) (freqToNote : K → ℤ)
    (ctx : DetectContext K) (available : ℕ)
    (hsz : 2 * ctx.maxPeriod ≤ (available : ℤ)) :
    detectAnalyze sqrtF freqToNote ctx (fun _ => (0 : K)) available =
      (if ctx.rate < ctx.droppedSamples then
        ({ ctx with lastDetected := INVALID_SEMITONE, droppedSamples := available },
          [DEvent.noteOff])
      else ({ ctx with droppedSamples := ctx.droppedSamples + available }, [])) := by
  have hq : (estimatePeriod sqrtF (fun _ => (0 : K)) (available : ℤ)
      ctx.minPeriod ctx.maxPeriod).quality = 0 :=
    estimatePeriod_zero_quality sqrtF (available : ℤ) ctx.minPeriod ctx.maxPeriod
  simp only [detectAnalyze]
  rw [if_neg (not_lt.mpr hsz)]
  by_cases hto : ctx.rate < ctx.droppedSamples
  · rw [if_pos hto, if_pos hto]
    rcases hpi : (estimatePeriod sqrtF (fun _ => (0 : K)) (available : ℤ)
        ctx.minPeriod ctx.maxPeriod).periodInt with _ | ip
    · simp
    · have hgate : ¬ (0 < ip ∧ MINIMUM_QUALITY ≤ (estimatePeriod sqrtF
          (fun _ => (0 : K)) (available : ℤ) ctx.minPeriod ctx.maxPeriod).quality) := by
        rw [hq]
        norm_num [MINIMUM_QUALITY]
      simp only [if_neg hgate]
      simp
  · rw [if_neg hto, if_neg hto]
    rcases hpi : (estimatePeriod sqrtF (fun _ => (0 : K)) (available : ℤ)
        ctx.minPeriod ctx.maxPeriod).periodInt with _ | ip
    · rfl
    · have hgate : ¬ (0 < ip ∧ MINIMUM_QUALITY ≤ (estimatePeriod sqrtF
          (fun _ => (0 : K)) (available : ℤ) ctx.minPeriod ctx.maxPeriod).quality) := by
        rw [hq]
        norm_num [MINIMUM_QUALITY]
      simp only [if_neg hgate]

end SilenceLemmas

/-- C5 (amended): an all-zero block never causes a NoteOn (its
periodicity quality is 0, failing the gate); a block too small to analyze
does nothing; otherwise, if `droppedSamples` has exceeded one second of
samples a NoteOff is emitted, `lastDetected` is set to INVALID and
`droppedSamples` restarts from 0 before the block is counted — so during
continued silence the timeout re-fires and emits a further NoteOff after
each additional second, rather than exactly once. -/
theorem detectAnalyze_silence {K : Type} [LinearOrderedField K] [FloorRing K]
    (sqrtF : K → K) (freqToNote : K → ℤ) (ctx : DetectContext K) (available : ℕ)
    (h1 : 1 < ctx.minPeriod) (h2 : ctx.minPeriod < ctx.maxPeriod) :
    ((detectAnalyze sqrtF freqToNote ctx (fun _ => (0 : K)) available).2.countP
      isNoteOn = 0) ∧
    ((available : ℤ) < 2 * ctx.maxPeriod →
      detectAnalyze sqrtF freqToNote ctx (fun _ => (0 : K)) available = (ctx, [])) ∧
    (2 * ctx.maxPeriod ≤ (available : ℤ) →
      detectAnalyze sqrtF freqToNote ctx (fun _ => (0 : K)) available =
        (if ctx.rate < ctx.droppedSamples then
          ({ ctx with lastDetected := INVALID_SEMITONE, droppedSamples := available },
            [DEvent.noteOff])
        else ({ ctx with droppedSamples := ctx.droppedSamples + available }, []))) := by
  by_cases hsz : (available : ℤ) < 2 * ctx.maxPeriod
  · refine ⟨?_, fun _ => ?_, fun hc => absurd hc (not_le.mpr hsz)⟩
    · rw [detectAnalyze, if_pos hsz]
      rfl
    · rw [detectAnalyze, if_pos hsz]
  · have hsz2 : 2 * ctx.maxPeriod ≤ (available : ℤ) := not_lt.mp hsz
    have hstep := detectAnalyze_zero_step sqrtF freqToNote ctx available hsz2
    refine ⟨?_, fun hc => absurd hc hsz, fun _ => hstep⟩
    rw [hstep]
    by_cases hto : ctx.rate < ctx.droppedSamples
    · rw [if_pos hto]
      rfl
    · rw [if_neg hto]
      rfl

/-- C5 witness: concrete instance with `rate = 10`, `minPeriod = 2`,
`maxPeriod = 3`, a sounding `lastDetected = 48`, `droppedSamples = 12`
(already past the one-second timeout), block of 6 zero samples: exactly one
NoteOff, `lastDetected` invalidated, `droppedSamples` restarted at 6. -/
theorem detectAnalyze_silence_witness :
    ((1 : ℤ) < 2 ∧ (2 : ℤ) < 3) ∧
    ((detectAnalyze (fun v : ℚ => v) (fun _ => (0 : ℤ))
        (DetectContext.mk 10 2 3 48 (fun _ => 0) 99 12) (fun _ => (0 : ℚ)) 6).2.countP
      isNoteOn = 0) ∧
    ((6 : ℤ) < 2 * (3 : ℤ) →
      detectAnalyze (fun v : ℚ => v) (fun _ => (0 : ℤ))
        (DetectContext.mk 10 2 3 48 (fun _ => 0) 99 12) (fun _ => (0 : ℚ)) 6 =
        (DetectContext.mk 10 2 3 48 (fun _ => 0) 99 12, [])) ∧
    (2 * (3 : ℤ) ≤ (6 : ℤ) →
      detectAnalyze (fun v : ℚ => v) (fun _ => (0 : ℤ))
        (DetectContext.mk 10 2 3 48 (fun _ => 0) 99 12) (fun _ => (0 : ℚ)) 6 =
        (if (10 : ℕ) < (12 : ℕ) then
          ({ DetectContext.mk 10 2 3 48 (fun _ => (0 : ℚ)) 99 12 with
              lastDetected := INVALID_SEMITONE, droppedSamples := 6 },
            [DEvent.noteOff])
        else ({ DetectContext.mk 10 2 3 48 (fun _ => (0 : ℚ)) 99 12 with
              droppedSamples := 12 + 6 }, []))) := by
  have h := detectAnalyze_silence (fun v : ℚ => v) (fun _ => (0 : ℤ))
    (DetectContext.mk 10 2 3 48 (fun _ => 0) 99 12) 6 (by norm_num) (by norm_num)
  exact ⟨⟨by norm_num, by norm_num⟩, h.1, h.2.1, h.2.2⟩

/-- The context used by the C5 counterexample run: a note (48) is
currently sounding, nothing dropped yet; `rate = 10`, so a bit over one
second is ~10 samples. -/
def ctxC5 : DetectContext ℚ := DetectContext.mk 10 2 3 48 (fun _ => 0) 99 0

/-- Repeatedly feed 6-sample all-zero blocks to `detectAnalyze`,
collecting all emitted events in order. -/
def runSilence : ℕ → DetectContext ℚ → DetectContext ℚ × List DEvent
  | 0, ctx => (ctx, [])
  | n + 1, ctx =>
    ((runSilence n (detectAnalyze (fun v : ℚ => v) (fun _ => (0 : ℤ)) ctx
        (fun _ => (0 : ℚ)) 6).1).1,
      (detectAnalyze (fun v : ℚ => v) (fun _ => (0 : ℤ)) ctx (fun _ => (0 : ℚ)) 6).2 ++
      (runSilence n (detectAnalyze (fun v : ℚ => v) (fun _ => (0 : ℤ)) ctx
        (fun _ => (0 : ℚ)) 6).1).2)

/-- C5 counterexample to the claim as stated: starting from a sounding
state (`lastDetected = 48 ≠ INVALID`) and staying in all-zero input for
five 6-sample blocks (3 seconds at rate 10), the pipeline emits TWO
NoteOffs — the stale-note timeout re-fires after each further second of
silence — contradicting "exactly one NoteOff and no further events until
sound resumes".  (No NoteOn is ever emitted.) -/
theorem detectAnalyze_silence_cex :
    ctxC5.lastDetected ≠ INVALID_SEMITONE ∧
    (runSilence 5 ctxC5).2 = [DEvent.noteOff, DEvent.noteOff] := by
  have s1 : detectAnalyze (fun v : ℚ => v) (fun _ => (0 : ℤ)) ctxC5
      (fun _ => (0 : ℚ)) 6 = (DetectContext.mk 10 2 3 48 (fun _ => 0) 99 6, []) := by
    rw [detectAnalyze_zero_step _ _ _ _ (by norm_num [ctxC5])]
    rw [if_neg (by norm_num [ctxC5])]
    rfl
  have s2 : detectAnalyze (fun v : ℚ => v) (fun _ => (0 : ℤ))
      (DetectContext.mk 10 2 3 48 (fun _ => 0) 99 6)
      (fun _ => (0 : ℚ)) 6 = (DetectContext.mk 10 2 3 48 (fun _ => 0) 99 12, []) := by
    rw [detectAnalyze_zero_step _ _ _ _ (by norm_num)]
    rw [if_neg (by norm_num)]
  have s3 : detectAnalyze (fun v : ℚ => v) (fun _ => (0 : ℤ))
      (DetectContext.mk 10 2 3 48 (fun _ => 0) 99 12)
      (fun _ => (0 : ℚ)) 6 =
      (DetectContext.mk 10 2 3 INVALID_SEMITONE (fun _ => 0) 99 6,
        [DEvent.noteOff]) := by
    rw [detectAnalyze_zero_step _ _ _ _ (by norm_num)]
    rw [if_pos (by norm_num)]
  have s4 : detectAnalyze (fun v : ℚ => v) (fun _ => (0 : ℤ))
      (DetectContext.mk 10 2 3 INVALID_SEMITONE (fun _ => 0) 99 6)
      (fun _ => (0 : ℚ)) 6 =
      (DetectContext.mk 10 2 3 INVALID_SEMITONE (fun _ => 0) 99 12, []) := by
    rw [detectAnalyze_zero_step _ _ _ _ (by norm_num)]
    rw [if_neg (by norm_num)]
  have s5 : detectAnalyze (fun v : ℚ => v) (fun _ => (0 : ℤ))
      (DetectContext.mk 10 2 3 INVALID_SEMITONE (fun _ => 0) 99 12)
      (fun _ => (0 : ℚ)) 6 =
      (DetectContext.mk 10 2 3 INVALID_SEMITONE (fun _ => 0) 99 6,
        [DEvent.noteOff]) := by
    rw [detectAnalyze_zero_step _ _ _ _ (by norm_num)]
    rw [if_pos (by norm_num)]
  refine ⟨by norm_num [ctxC5, INVALID_SEMITONE], ?_⟩
  rw [show (5 : ℕ) = 4 + 1 from rfl, runSilence, s1]
  rw [show (4 : ℕ) = 3 + 1 from rfl, runSilence, s2]
  rw [show (3 : ℕ) = 2 + 1 from rfl, runSilence, s3]
  rw [show (2 : ℕ) = 1 + 1 from rfl, runSilence, s4]
  rw [show (1 : ℕ) = 0 + 1 from rfl, runSilence, s5]
  rw [runSilence]
  rfl
